import Mathlib

/-!
# Verification of the Bible-Duo core pipelines

Shallow embedding of the two algorithmic subsystems of the Bible-Duo
application: the passage-reference resolver (reference parser, book-name
mapper, verse resolver over the two Bible document shapes) and the streak
engine.  Each definition is translated from the TypeScript/JavaScript
source; theorems below settle the frozen specification claims.
-/

namespace BibleDuo

/-! ## Reference parser

Embeds `parsePassageReference` (ReadingView).  The source tries three
regular expressions in order:

1. cross-chapter  `^(.+?)\s+(\d+):(\d+)-(\d+):(\d+)$`
2. single-chapter `^(.+?)\s+(\d+):(\d+)-(\d+)$`
3. single-verse   `^(.+?)\s+(\d+):(\d+)$`

In each pattern the tail after the lazy book group is deterministic: the
character classes of adjacent tokens (`\s`, `\d`, a literal `:` or `-`)
are pairwise disjoint, so greedy matching has forced boundaries and the
only backtracking choice is the length of the lazy `(.+?)` group, tried
shortest first.  The matcher below implements exactly that search.
-/

/-- The parsed passage descriptor (`PassageInfo` in the source). -/
structure PassageInfo where
  book : String
  startChapter : Nat
  startVerse : Nat
  endChapter : Nat
  endVerse : Nat
deriving Repr, DecidableEq

/-- JavaScript `\s` on the code points that can occur in plan references
(space, tab, line feed, vertical tab, form feed, carriage return,
no-break space). -/
def isJsSpace (c : Char) : Bool :=
  c = ' ' || c = '\t' || c = '\n' || c.toNat = 11 || c.toNat = 12 ||
  c = '\r' || c.toNat = 160

/-- JavaScript `.` (without the `s` flag) matches everything except the
four line terminators. -/
def isDotChar (c : Char) : Bool :=
  !(c = '\n' || c = '\r' || c.toNat = 0x2028 || c.toNat = 0x2029)

/-- Numeric value of a digit string, i.e. `parseInt(s)` on an all-digit
capture group. -/
def digitsVal (ds : List Char) : Nat :=
  ds.foldl (fun n c => n * 10 + (c.toNat - 48)) 0

/-- Greedy `(\d+)`: split off the maximal leading digit run, failing if it
is empty. -/
def takeDigits (cs : List Char) : Option (List Char × List Char) :=
  let ds := cs.takeWhile Char.isDigit
  if ds.isEmpty then none else some (ds, cs.dropWhile Char.isDigit)

/-- Consume one expected literal character. -/
def expectChar (c : Char) : List Char → Option (List Char)
  | x :: rest => if x = c then some rest else none
  | [] => none

/-- Match `(\d+) sep₁ (\d+) sep₂ … (\d+) $` where `seps` lists the literal
separator characters; returns the numeric capture groups. -/
def matchSepDigits : List Char → List Char → Option (List Nat)
  | seps, cs =>
    match takeDigits cs with
    | none => none
    | some (ds, rest) =>
      match seps with
      | [] => if rest.isEmpty then some [digitsVal ds] else none
      | s :: seps1 =>
        match expectChar s rest with
        | none => none
        | some rest1 =>
          match matchSepDigits seps1 rest1 with
          | none => none
          | some ns => some (digitsVal ds :: ns)

/-- Greedy `\s+` followed by the separated digit groups: skip the maximal
nonempty whitespace run, then match the rest of the tail. -/
def matchSpaceTail (seps : List Char) (cs : List Char) : Option (List Nat) :=
  let ws := cs.takeWhile isJsSpace
  if ws.isEmpty then none else matchSepDigits seps (cs.dropWhile isJsSpace)

/-- The lazy `^(.+?)` group: try book prefixes shortest first; for each
candidate the remainder must match the (deterministic) tail.  `bookRev`
holds the reversed characters committed to the book group so far. -/
def splitBook (seps : List Char) : List Char → List Char →
    Option (String × List Nat)
  | _, [] => none
  | bookRev, c :: rest =>
    if isDotChar c then
      match matchSpaceTail seps rest with
      | some ns => some (⟨(c :: bookRev).reverse⟩, ns)
      | none => splitBook seps (c :: bookRev) rest
    else none

/-- Grammar rule 1, `^(.+?)\s+(\d+):(\d+)-(\d+):(\d+)$`: cross-chapter
passages like `"Genesis 1:1-2:25"`. -/
def matchCrossChapter (reference : String) : Option PassageInfo :=
  match splitBook [':', '-', ':'] [] reference.data with
  | some (book, [c1, v1, c2, v2]) => some ⟨book, c1, v1, c2, v2⟩
  | _ => none

/-- Grammar rule 2, `^(.+?)\s+(\d+):(\d+)-(\d+)$`: single-chapter ranges
like `"Genesis 1:1-6"`. -/
def matchSingleChapter (reference : String) : Option PassageInfo :=
  match splitBook [':', '-'] [] reference.data with
  | some (book, [c, v1, v2]) => some ⟨book, c, v1, c, v2⟩
  | _ => none

/-- Grammar rule 3, `^(.+?)\s+(\d+):(\d+)$`: single verses like
`"Genesis 1:1"`. -/
def matchSingleVerse (reference : String) : Option PassageInfo :=
  match splitBook [':'] [] reference.data with
  | some (book, [c, v]) => some ⟨book, c, v, c, v⟩
  | _ => none

/-- `parsePassageReference` from the source: the three grammar rules
tried in priority order, cross-chapter first (each `if (...Match)` block
returns early). -/
def parsePassageReference (reference : String) : Option PassageInfo :=
  match matchCrossChapter reference with
  | some info => some info
  | none =>
    match matchSingleChapter reference with
    | some info => some info
    | none => matchSingleVerse reference

/-! ## Verse resolver

Embeds `getVersesForPassage` (ReadingView).  The function dispatches on
the configured translation: the ESV branch walks a keyed document
(book → chapter → verse → text, nested objects), the CUVS branch filters
and sorts a flat record list. -/

/-- One output verse (`Verse` in the source). -/
structure Verse where
  verse : Nat
  text : String
deriving Repr, DecidableEq

/-- Keyed-shape chapter: verse number → text.  The JS object keys are the
decimal numerals of the verse numbers, modelled as the numbers
themselves. -/
abbrev ESVChapter := List (Nat × String)

/-- Keyed-shape book: chapter number → chapter data. -/
abbrev ESVBook := List (Nat × ESVChapter)

/-- Keyed (ESV) Bible document: book name → book data. -/
abbrev ESVBible := List (String × ESVBook)

/-- Flat (CUVS) document record. -/
structure CUVSRecord where
  book_name : String
  book : Nat
  chapter : Nat
  verse : Nat
  text : String
deriving Repr, DecidableEq

/-- The two supported translations. -/
inductive Translation
  | ESV
  | CUVS
deriving Repr, DecidableEq

/-- The fixed English → Chinese book-name table of the CUVS branch of
`mapBookName`, copied from the source. -/
def cuvsBookMapping : List (String × String) :=
  [("Genesis", "创世记"), ("Exodus", "出埃及"), ("Leviticus", "利未记"),
   ("Numbers", "民数记"), ("Deuteronomy", "申命记"), ("Joshua", "约书亚记"),
   ("Judges", "士师记"), ("Ruth", "路得记"), ("1Samuel", "撒母耳记上"),
   ("2Samuel", "撒母耳记下"), ("1Kings", "列王纪上"), ("2Kings", "列王纪下"),
   ("1Chronicles", "历代志上"), ("2Chronicles", "历代志下"),
   ("Ezra", "以斯拉记"), ("Nehemiah", "尼希米记"), ("Esther", "以斯帖记"),
   ("Job", "约伯记"), ("Psalm", "诗篇"), ("Proverbs", "箴言"),
   ("Ecclesiastes", "传道书"), ("SongOfSongs", "雅歌"), ("Isaiah", "以赛亚书"),
   ("Jeremiah", "耶利米书"), ("Lamentations", "耶利米哀歌"),
   ("Ezekiel", "以西结书"), ("Daniel", "但以理书"), ("Hosea", "何西阿书"),
   ("Joel", "约珥书"), ("Amos", "阿摩司书"), ("Obadiah", "俄巴底亚书"),
   ("Jonah", "约拿书"), ("Micah", "弥迦书"), ("Nahum", "那鸿书"),
   ("Habakkuk", "哈巴谷书"), ("Zephaniah", "西番雅书"), ("Haggai", "哈该书"),
   ("Zechariah", "撒迦利亚书"), ("Malachi", "玛拉基书"), ("Matthew", "马太福音"),
   ("Mark", "马可福音"), ("Luke", "路加福音"), ("John", "约翰福音"),
   ("Acts", "使徒行传"), ("Romans", "罗马书"), ("1Corinthians", "歌林多前书"),
   ("2Corinthians", "歌林多后书"), ("Galatians", "加拉太书"),
   ("Ephesians", "以弗所书"), ("Philippians", "腓立比书"),
   ("Colossians", "歌罗西书"), ("1Thessalonians", "帖撒罗尼迦前书"),
   ("2Thessalonians", "帖撒罗尼迦后书"), ("1Timothy", "提摩太前书"),
   ("2Timothy", "提摩太后书"), ("Titus", "提多书"), ("Philemon", "腓利门书"),
   ("Hebrews", "希伯来书"), ("James", "雅各书"), ("1Peter", "彼得前书"),
   ("2Peter", "彼得后书"), ("1John", "约翰一书"), ("2John", "约翰二书"),
   ("3John", "约翰三书"), ("Jude", "犹大书"), ("Revelation", "启示录")]

/-- `mapBookName`: identity for ESV; for CUVS the fixed table with
identity fallback for unmapped names. -/
def mapBookName (translation : Translation) (bookName : String) : String :=
  match translation with
  | .ESV => bookName
  | .CUVS => (cuvsBookMapping.lookup bookName).getD bookName

/-- The chapters visited by the resolver loop
`for (chapter = startChapter; chapter <= endChapter; chapter++)`. -/
def chapterRange (info : PassageInfo) : List Nat :=
  List.range' info.startChapter (info.endChapter + 1 - info.startChapter)

/-- Lower verse bound for a chapter (both branches):
`chapter === startChapter ? startVerse : 1`. -/
def lowerBound (info : PassageInfo) (chapter : Nat) : Nat :=
  if chapter = info.startChapter then info.startVerse else 1

/-- Upper verse bound used by the keyed (ESV) branch:
`chapter === endChapter ? endVerse : 999` — a fixed sentinel for
non-final chapters. -/
def esvUpperBound (info : PassageInfo) (chapter : Nat) : Nat :=
  if chapter = info.endChapter then info.endVerse else 999

/-- One iteration of the ESV inner loop: look verse `v` up in the
chapter object and keep it when the lookup yields a truthy (non-empty)
string. -/
def esvVerseAt (chapterData : ESVChapter) (v : Nat) : Option Verse :=
  match chapterData.lookup v with
  | some t => if t = "" then none else some ⟨v, t⟩
  | none => none

/-- The ESV inner loop: every verse number in `[vLo, vHi]`, kept when
present with truthy text. -/
def esvWindow (chapterData : ESVChapter) (vLo vHi : Nat) : List Verse :=
  (List.range' vLo (vHi + 1 - vLo)).filterMap (esvVerseAt chapterData)

/-- The body of the ESV chapter loop: a missing chapter contributes
nothing (`continue`), a present one its verse window. -/
def esvChapterVerses (bookData : ESVBook) (info : PassageInfo)
    (chapter : Nat) : List Verse :=
  match bookData.lookup chapter with
  | none => []
  | some chapterData =>
    esvWindow chapterData (lowerBound info chapter) (esvUpperBound info chapter)

/-- The ESV chapter loop over a resolved book. -/
def getVersesESVBook (bookData : ESVBook) (info : PassageInfo) : List Verse :=
  (chapterRange info).flatMap (esvChapterVerses bookData info)

/-- The ESV branch of `getVersesForPassage`: parse the reference, map the
book name, resolve the book (missing book ⇒ empty), walk the chapters. -/
def getVersesForPassageESV (esvData : ESVBible) (reference : String) :
    List Verse :=
  match parsePassageReference reference with
  | none => []
  | some info =>
    match esvData.lookup (mapBookName .ESV info.book) with
    | none => []
    | some bookData => getVersesESVBook bookData info

/-- `Math.max(...chapterVerses.map(v => v.verse))` on a (nonempty) record
list. -/
def cuvsMaxVerse (chapterVerses : List CUVSRecord) : Nat :=
  (chapterVerses.map (·.verse)).foldl max 0

/-- Upper verse bound used by the flat (CUVS) branch: the descriptor's
`endVerse` for the final chapter, otherwise the maximum verse number
actually present in the chapter's records. -/
def cuvsUpperBound (info : PassageInfo) (chapter : Nat)
    (chapterVerses : List CUVSRecord) : Nat :=
  if chapter = info.endChapter then info.endVerse
  else cuvsMaxVerse chapterVerses

/-- The comparator of the CUVS verse sort
(`.sort((a, b) => a.verse - b.verse)`). -/
def verseLe (a b : Verse) : Prop := a.verse ≤ b.verse

instance : DecidableRel verseLe := fun a b => Nat.decLe a.verse b.verse

instance : IsTotal Verse verseLe := ⟨fun a b => Nat.le_total a.verse b.verse⟩

instance : IsTrans Verse verseLe := ⟨fun _ _ _ => Nat.le_trans⟩

/-- The CUVS per-chapter computation: filter the chapter's records to the
verse window, project to output verses, and sort by verse number
ascending — a stable insertion sort, as the JS stable `Array.sort`. -/
def cuvsChapterWindow (chapterVerses : List CUVSRecord) (vLo vHi : Nat) :
    List Verse :=
  ((chapterVerses.filter fun v => decide (vLo ≤ v.verse) &&
      decide (v.verse ≤ vHi)).map fun v =>
    Verse.mk v.verse v.text).insertionSort verseLe

/-- The body of the CUVS chapter loop: a chapter with no records
contributes nothing (`continue`), otherwise its filtered and sorted
window. -/
def cuvsChapterVerses (bookVerses : List CUVSRecord) (info : PassageInfo)
    (chapter : Nat) : List Verse :=
  let chapterVerses := bookVerses.filter fun v => decide (v.chapter = chapter)
  if chapterVerses.isEmpty then []
  else cuvsChapterWindow chapterVerses (lowerBound info chapter)
    (cuvsUpperBound info chapter chapterVerses)

/-- The CUVS chapter loop over the records of one (mapped) book name. -/
def getVersesCUVSBook (bookVerses : List CUVSRecord) (info : PassageInfo) :
    List Verse :=
  (chapterRange info).flatMap (cuvsChapterVerses bookVerses info)

/-- The CUVS branch of `getVersesForPassage` after parsing: check the
mapped book name occurs in the data (early empty return otherwise),
filter the book's records, walk the chapters. -/
def getVersesCUVS (cuvsVerses : List CUVSRecord) (name : String)
    (info : PassageInfo) : List Verse :=
  if (cuvsVerses.map (·.book_name)).contains name then
    getVersesCUVSBook (cuvsVerses.filter fun v => decide (v.book_name = name))
      info
  else []

/-- The CUVS branch of `getVersesForPassage`. -/
def getVersesForPassageCUVS (cuvsVerses : List CUVSRecord)
    (reference : String) : List Verse :=
  match parsePassageReference reference with
  | none => []
  | some info => getVersesCUVS cuvsVerses (mapBookName .CUVS info.book) info

/-- The ESV chapter walk with each produced verse annotated by the chapter
it came from; used to state the `(chapter, verse)` ordering invariant,
which is not directly observable on the untagged output list. -/
def esvAnnotated (bookData : ESVBook) (info : PassageInfo) :
    List (Nat × Verse) :=
  (chapterRange info).flatMap fun chapter =>
    (esvChapterVerses bookData info chapter).map fun v => (chapter, v)

/-- The CUVS chapter walk with chapter annotations (see `esvAnnotated`). -/
def cuvsAnnotated (bookVerses : List CUVSRecord) (info : PassageInfo) :
    List (Nat × Verse) :=
  (chapterRange info).flatMap fun chapter =>
    (cuvsChapterVerses bookVerses info chapter).map fun v => (chapter, v)

/-- Strict `(chapter, verse)` position order on annotated verses. -/
def posLt (a b : Nat × Verse) : Prop :=
  a.1 < b.1 ∨ (a.1 = b.1 ∧ a.2.verse < b.2.verse)

instance : DecidableRel posLt := fun a b => by
  unfold posLt; infer_instance

/-- Non-strict `(chapter, verse)` position order on annotated verses. -/
def posLe (a b : Nat × Verse) : Prop :=
  a.1 < b.1 ∨ (a.1 = b.1 ∧ a.2.verse ≤ b.2.verse)

instance : DecidableRel posLe := fun a b => by
  unfold posLe; infer_instance

/-! ## Calendar dates

The streak engine manipulates dates as `YYYY-MM-DD` strings: it sorts
them with JS default (lexicographic) `sort()`, walks backwards one
calendar day at a time via `Date` round-trips
(`new Date(s)` / `setDate(getDate() - 1)` / `toISOString().split('T')[0]`),
and measures gaps in whole days via epoch-millisecond differences.  The
model below implements that day-granularity arithmetic on the proleptic
Gregorian calendar used by JS `Date` UTC computations. -/

/-- Gregorian leap year. -/
def isLeap (y : Nat) : Bool :=
  (y % 4 == 0 && !(y % 100 == 0)) || y % 400 == 0

/-- Number of days in a month. -/
def daysInMonth (y m : Nat) : Nat :=
  if m = 2 then (if isLeap y then 29 else 28)
  else if m = 4 || m = 6 || m = 9 || m = 11 then 30
  else 31

/-- Day serial number of a calendar date (days since 0000-03-01,
Hinnant's `days_from_civil` shifted to stay in `Nat`).  For ISO-parsed
dates `Date.getTime()` is an affine function of this serial, so epoch
millisecond differences divided by 86 400 000 are serial differences. -/
def daysFromCivil (y m d : Nat) : Nat :=
  let yAdj := if m ≤ 2 then y - 1 else y
  let mp := if 2 < m then m - 3 else m + 9
  let era := yAdj / 400
  let yoe := yAdj % 400
  let doy := (153 * mp + 2) / 5 + (d - 1)
  let doe := yoe * 365 + yoe / 4 - yoe / 100 + doy
  era * 146097 + doe

/-- Decimal digit value of a character. -/
def digitVal? (c : Char) : Option Nat :=
  if c.isDigit then some (c.toNat - 48) else none

/-- Parse a canonical `YYYY-MM-DD` string (the shape produced by
`toISOString().split('T')[0]`) into `(year, month, day)`.  Other strings
are rejected: in the source they make `new Date(...)` invalid. -/
def parseISODate (s : String) : Option (Nat × Nat × Nat) :=
  match s.data with
  | [y1, y2, y3, y4, h1, m1, m2, h2, d1, d2] =>
    if h1 = '-' ∧ h2 = '-' then
      match digitVal? y1, digitVal? y2, digitVal? y3, digitVal? y4,
            digitVal? m1, digitVal? m2, digitVal? d1, digitVal? d2 with
      | some a, some b, some c, some d, some e, some f, some g, some h =>
        some (a * 1000 + b * 100 + c * 10 + d, e * 10 + f, g * 10 + h)
      | _, _, _, _, _, _, _, _ => none
    else none
  | _ => none

/-- The decimal digit character for `n < 10`. -/
def digitChar (n : Nat) : Char := Char.ofNat (48 + n)

/-- Two-digit zero-padded numeral. -/
def pad2 (n : Nat) : List Char := [digitChar (n / 10 % 10), digitChar (n % 10)]

/-- Four-digit zero-padded numeral. -/
def pad4 (n : Nat) : List Char :=
  [digitChar (n / 1000 % 10), digitChar (n / 100 % 10),
   digitChar (n / 10 % 10), digitChar (n % 10)]

/-- Format a date as the canonical `YYYY-MM-DD` string
(`toISOString().split('T')[0]` for dates with four-digit years). -/
def formatISODate (y m d : Nat) : String :=
  ⟨pad4 y ++ '-' :: (pad2 m ++ '-' :: pad2 d)⟩

/-- Components of the previous calendar day: the effect of
`setDate(getDate() - 1)` on the date parts. -/
def prevCivil (y m d : Nat) : Nat × Nat × Nat :=
  if 2 ≤ d then (y, m, d - 1)
  else if 2 ≤ m then (y, m - 1, daysInMonth y (m - 1))
  else (y - 1, 12, 31)

/-- Stepping back one day from given date components, as a string. -/
def prevDayCivil (y m d : Nat) : String :=
  let p := prevCivil y m d
  formatISODate p.1 p.2.1 p.2.2

/-- One backwards step of the current-streak loop on the ISO string:
parse, step to the previous calendar day, re-format.  On an unparseable
string (where the source would raise on `toISOString`) the input is
returned unchanged; all theorems below use it on parseable dates only. -/
def prevDay (s : String) : String :=
  match parseISODate s with
  | some t => prevDayCivil t.1 t.2.1 t.2.2
  | none => s

/-- A canonical ISO date string with in-range components: what the
application itself stores (`new Date().toISOString().split('T')[0]`). -/
def isValidISODate (s : String) : Bool :=
  match parseISODate s with
  | some (y, m, d) =>
    decide (1 ≤ y) && decide (y ≤ 9999) && decide (1 ≤ m) &&
    decide (m ≤ 12) && decide (1 ≤ d) && decide (d ≤ daysInMonth y m)
  | none => false

/-- `Math.floor((new Date(a) - new Date(b)) / 86400000)` at day
granularity: the difference of day serials.  `none` models the `NaN`
produced by an invalid date, which compares unequal to `1`. -/
def dayDiff (a b : String) : Option Int :=
  match parseISODate a, parseISODate b with
  | some (y1, m1, d1), some (y2, m2, d2) =>
    some ((daysFromCivil y1 m1 d1 : Int) - (daysFromCivil y2 m2 d2 : Int))
  | _, _ => none

/-! ## Streak engine

Embeds `calculateStreaks` from the Scriptable widget script.  (The copy
inside `WidgetView.calculateStreaks` runs the same pipeline line for
line, differing only in materialising the completed-day set in ascending
order before the date sort, which cannot change the sorted date list.) -/

/-- Streak statistics (`currentStreak`, `longestStreak`,
`totalCompleted`). -/
structure StreakStats where
  currentStreak : Nat
  longestStreak : Nat
  totalCompleted : Nat
deriving Repr, DecidableEq

/-- Lexicographic comparison of character sequences by code point: the
JS `<` comparison used by default `sort()`, which compares UTF-16 code
units (identical to code points on the BMP characters of ISO dates). -/
def charListLtb : List Char → List Char → Bool
  | [], [] => false
  | [], _ :: _ => true
  | _ :: _, [] => false
  | a :: as, b :: bs =>
    if a.toNat < b.toNat then true
    else if b.toNat < a.toNat then false
    else charListLtb as bs

/-- String comparison `a ≤ b` in the JS default sort order. -/
def strLeb (a b : String) : Bool := !(charListLtb b.data a.data)

/-- `strLeb` as a proposition (the relation the sort is stated over). -/
def strLe (a b : String) : Prop := strLeb a b = true

instance : DecidableRel strLe := fun a b => by
  unfold strLe
  infer_instance

/-- JS default `Array.prototype.sort()` on strings: lexicographic by
code units, modelled as a stable insertion sort under `strLeb`. -/
def sortStrings (l : List String) : List String :=
  l.insertionSort strLe

/-- The state of the current-streak walk after `k` decrements: `k`
calendar days before `s`. -/
def daysBack : Nat → String → String
  | 0, s => s
  | k + 1, s => daysBack k (prevDay s)

/-- Numeric `YYYYMMDD` key of a date string (`0` when unparseable).  The
previous-day step strictly decreases it on valid dates, which bounds the
backwards walk. -/
def serialKey (s : String) : Nat :=
  match parseISODate s with
  | some (y, m, d) => y * 10000 + m * 100 + d
  | none => 0

/-- `m` is the most recent of `dates`: a member every member precedes in
the JS sort order — which on fixed-width ISO date strings is
chronological order. -/
def IsMostRecent (dates : List String) (m : String) : Prop :=
  m ∈ dates ∧ ∀ s ∈ dates, strLe s m

/-- JS truthiness fallback `completionDate ? completionDate : today`
(an empty or absent stored date falls back to today). -/
def jsOrString (x : Option String) (d : String) : String :=
  match x with
  | some s => if s = "" then d else s
  | none => d

/-- The current-streak loop
`while (sortedDates.includes(iso(cur))) { streak++; cur-- }` with
explicit fuel.  The JS loop terminates because the visited date strings
strictly decrease through a finite membership set; `calculateStreaks`
supplies fuel `sortedDates.length + 1`, which lemma
`countBack_eq_of_gap` below shows is never exhausted on valid dates. -/
def countBack (dates : List String) : String → Nat → Nat
  | _, 0 => 0
  | cur, fuel + 1 =>
    if cur ∈ dates then countBack dates (prevDay cur) fuel + 1 else 0

/-- One step of the longest-streak scan (`sortedDates.forEach`); the
state is `(longestStreak, currentStreakCount, lastDate)`. -/
def longestStep : Nat × Nat × Option String → String → Nat × Nat × Option String
  | (longest, _, none), dateStr => (longest, 1, some dateStr)
  | (longest, run, some last), dateStr =>
    if dayDiff dateStr last = some 1 then (longest, run + 1, some dateStr)
    else (max longest run, 1, some dateStr)

/-- The longest-streak scan, folding in the final run after the loop. -/
def longestStreakOf (sortedDates : List String) : Nat :=
  let acc := sortedDates.foldl longestStep (0, 0, none)
  max acc.1 acc.2.1

/-- `calculateStreaks(completedDays, completionDates)`.  `today` is the
value of `new Date().toISOString().split('T')[0]` at call time: the
clock input consulted whenever a completed day has no (truthy) recorded
date. -/
def calculateStreaks (today : String) (completedDays : List Nat)
    (completionDates : Nat → Option String) : StreakStats :=
  if completedDays.isEmpty then ⟨0, 0, 0⟩
  else
    let completionDateStrings := completedDays.map fun dayNumber =>
      jsOrString (completionDates dayNumber) today
    let sortedDates := sortStrings completionDateStrings
    let mostRecentDate := sortedDates.getLastD ""
    ⟨countBack sortedDates mostRecentDate (sortedDates.length + 1),
     longestStreakOf sortedDates, completedDays.length⟩

/-! ## Completion record updates

Embeds `handleComplete` (ReadingView) and the `updateSettings` merge it
triggers (`setSettings(prev => ({ ...prev, ...newSettings }))` in App). -/

/-- JS `x || d` on an optional number: `0` and `undefined` are falsy. -/
def jsOrNat (x : Option Nat) (d : Nat) : Nat :=
  match x with
  | some n => if n = 0 then d else n
  | none => d

/-- The `AppSettings` fields from the source type; the two completion
fields are optional as in TypeScript, and the completion-date `Map` is
modelled extensionally by its lookup function. -/
structure AppSettings where
  translation : Translation
  uiLanguage : String
  fontSize : Nat
  theme : String
  selectedPlan : Option String
  currentDay : Option Nat
  completedDays : Option (Finset Nat)
  completionDates : Option (Nat → Option String)

/-- The defaulted completion-date lookup of a settings value
(`settings.completionDates || new Map()` as read by the components). -/
def completionDatesD (settings : AppSettings) : Nat → Option String :=
  settings.completionDates.getD fun _ => none

/-- The partial settings object `handleComplete` passes to
`updateSettings`. -/
structure CompletionUpdate where
  completedDays : Finset Nat
  completionDates : Nat → Option String

/-- `handleComplete`: copy the completed-day set and add the current day;
copy the completion-date map and set the current day to today's ISO
date. -/
def handleComplete (today : String) (settings : AppSettings) :
    CompletionUpdate :=
  let currentDay := jsOrNat settings.currentDay 1
  let completedDays := settings.completedDays.getD ∅
  let completionDates := settings.completionDates.getD fun _ => none
  { completedDays := insert currentDay completedDays
    completionDates := fun day =>
      if day = currentDay then some today else completionDates day }

/-- The `updateSettings` merge for the two fields `handleComplete`
passes: spread syntax keeps every other field of the previous
settings. -/
def applyCompletionUpdate (settings : AppSettings) (u : CompletionUpdate) :
    AppSettings :=
  { settings with
    completedDays := some u.completedDays
    completionDates := some u.completionDates }

/-- Marking the current day complete: `handleComplete` followed by the
settings merge. -/
def markComplete (today : String) (settings : AppSettings) : AppSettings :=
  applyCompletionUpdate settings (handleComplete today settings)

/-! # Theorems -/

/-! ## Parser rule lemmas -/

/-- Grammar rule 2 always produces equal start and end chapters. -/
theorem matchSingleChapter_chapters (reference : String) (info : PassageInfo)
    (h : matchSingleChapter reference = some info) :
    info.startChapter = info.endChapter := by
  unfold matchSingleChapter at h
  rcases hs : splitBook [':', '-'] [] reference.data with _ | ⟨book, ns⟩ <;>
    rw [hs] at h
  · simp at h
  · rcases ns with _ | ⟨a, _ | ⟨b, _ | ⟨c, _ | ⟨d, rest⟩⟩⟩⟩
    · simp at h
    · simp at h
    · simp at h
    · simp only [Option.some.injEq] at h
      rw [← h]
    · simp at h

/-- Grammar rule 3 always produces equal start and end chapters. -/
theorem matchSingleVerse_chapters (reference : String) (info : PassageInfo)
    (h : matchSingleVerse reference = some info) :
    info.startChapter = info.endChapter := by
  unfold matchSingleVerse at h
  rcases hs : splitBook [':'] [] reference.data with _ | ⟨book, ns⟩ <;>
    rw [hs] at h
  · simp at h
  · rcases ns with _ | ⟨a, _ | ⟨b, _ | ⟨c, rest⟩⟩⟩
    · simp at h
    · simp at h
    · simp only [Option.some.injEq] at h
      rw [← h]
    · simp at h

/-! ## Claim C8 — parser priority on a cross-chapter reference -/

/-- C8: the cross-chapter rule, tried first, matches
`"Genesis 1:1-2:25"`, and the parser therefore returns the cross-chapter
descriptor `startChapter = 1`, `startVerse = 1`, `endChapter = 2`,
`endVerse = 25` rather than any single-chapter reading. -/
theorem claim_C8 :
    matchCrossChapter "Genesis 1:1-2:25" = some ⟨"Genesis", 1, 1, 2, 25⟩ ∧
    parsePassageReference "Genesis 1:1-2:25" =
      some ⟨"Genesis", 1, 1, 2, 25⟩ := by
  decide

/-! ## Claim C4 — the parser does not enforce `startChapter ≤ endChapter` -/

/-- C4 counterexample: the cross-chapter rule copies the two chapter
numerals unchecked, so the accepted input `"Genesis 2:1-1:1"` produces a
descriptor with `startChapter = 2 > 1 = endChapter`, refuting the claim
that every accepted input satisfies `startChapter ≤ endChapter`. -/
theorem claim_C4_counterexample :
    parsePassageReference "Genesis 2:1-1:1" =
      some ⟨"Genesis", 2, 1, 1, 1⟩ ∧
    ¬ ((2 : Nat) ≤ 1) := by
  decide

/-- C4 (amended): descriptors produced by the single-chapter-range and
single-verse rules satisfy `startChapter = endChapter` (hence
`startChapter ≤ endChapter`); the cross-chapter rule copies both chapter
numerals without any check, so for inputs it accepts the invariant holds
only when the input itself is well-ordered. -/
theorem claim_C4 (reference : String) (info : PassageInfo)
    (hcross : matchCrossChapter reference = none)
    (h : parsePassageReference reference = some info) :
    info.startChapter = info.endChapter := by
  unfold parsePassageReference at h
  rw [hcross] at h
  rcases h2 : matchSingleChapter reference with _ | i <;> rw [h2] at h
  · exact matchSingleVerse_chapters reference info (by simpa using h)
  · simp only [Option.some.injEq] at h
    subst h
    exact matchSingleChapter_chapters reference i h2

/-- Witness for C4 at the single-chapter input `"Genesis 1:1-6"`. -/
theorem claim_C4_witness :
    matchCrossChapter "Genesis 1:1-6" = none ∧
    (⟨"Genesis", 1, 1, 1, 6⟩ : PassageInfo).startChapter =
      (⟨"Genesis", 1, 1, 1, 6⟩ : PassageInfo).endChapter :=
  ⟨by decide,
   claim_C4 "Genesis 1:1-6" ⟨"Genesis", 1, 1, 1, 6⟩ (by decide) (by decide)⟩

/-! ## Claim C2 — the gap scenario of the streak engine -/

/-- C2: completed days `{1, 2, 5}` with dates
`1 ↦ "2024-01-01"`, `2 ↦ "2024-01-02"`, `5 ↦ "2024-01-10"` yield
`currentStreak = 1`, `longestStreak = 2`, `totalCompleted = 3`,
whatever the current date is (every day has a recorded date, so the
clock fallback is never consulted). -/
theorem claim_C2 (today : String) :
    calculateStreaks today [1, 2, 5]
      (fun day =>
        if day = 1 then some "2024-01-01"
        else if day = 2 then some "2024-01-02"
        else if day = 5 then some "2024-01-10" else none) =
    ⟨1, 2, 3⟩ := rfl

/-! ## String order lemmas

`charListLtb` is a strict linear order on character lists; these lemmas
let the lexicographically sorted date list be reasoned about. -/

/-- No list is below itself. -/
theorem charListLtb_irrefl : ∀ as, charListLtb as as = false
  | [] => rfl
  | a :: as => by
    simp only [charListLtb]
    rw [if_neg (lt_irrefl _), if_neg (lt_irrefl _)]
    exact charListLtb_irrefl as

/-- The comparison is asymmetric. -/
theorem charListLtb_asymm : ∀ as bs, charListLtb as bs = true →
    charListLtb bs as = false
  | [], [], h => by simp [charListLtb] at h
  | [], _ :: _, _ => by simp [charListLtb]
  | _ :: _, [], h => by simp [charListLtb] at h
  | a :: as, b :: bs, h => by
    simp only [charListLtb] at h ⊢
    by_cases hab : a.toNat < b.toNat
    · rw [if_neg (by omega), if_pos hab]
    · by_cases hba : b.toNat < a.toNat
      · rw [if_neg hab, if_pos hba] at h
        exact absurd h (by simp)
      · rw [if_neg hab, if_neg hba] at h
        rw [if_neg hba, if_neg hab]
        exact charListLtb_asymm as bs h

/-- The comparison is transitive. -/
theorem charListLtb_trans : ∀ as bs cs, charListLtb as bs = true →
    charListLtb bs cs = true → charListLtb as cs = true
  | [], [], _, h1, _ => by simp [charListLtb] at h1
  | [], _ :: _, [], _, h2 => by simp [charListLtb] at h2
  | [], _ :: _, _ :: _, _, _ => by simp [charListLtb]
  | _ :: _, [], _, h1, _ => by simp [charListLtb] at h1
  | _ :: _, _ :: _, [], _, h2 => by simp [charListLtb] at h2
  | a :: as, b :: bs, c :: cs, h1, h2 => by
    simp only [charListLtb] at h1 h2 ⊢
    by_cases hab : a.toNat < b.toNat
    · by_cases hbc : b.toNat < c.toNat
      · rw [if_pos (by omega)]
      · rw [if_neg hbc] at h2
        by_cases hcb : c.toNat < b.toNat
        · rw [if_pos hcb] at h2
          exact absurd h2 (by simp)
        · rw [if_pos (by omega)]
    · rw [if_neg hab] at h1
      by_cases hba : b.toNat < a.toNat
      · rw [if_pos hba] at h1
        exact absurd h1 (by simp)
      · rw [if_neg hba] at h1
        by_cases hbc : b.toNat < c.toNat
        · rw [if_pos (by omega)]
        · rw [if_neg hbc] at h2
          by_cases hcb : c.toNat < b.toNat
          · rw [if_pos hcb] at h2
            exact absurd h2 (by simp)
          · rw [if_neg hcb] at h2
            rw [if_neg (by omega), if_neg (by omega)]
            exact charListLtb_trans as bs cs h1 h2

/-- Characters with equal code points are equal. -/
theorem char_toNat_inj {a b : Char} (h : a.toNat = b.toNat) : a = b :=
  Char.ext (UInt32.toNat.inj h)

/-- Two lists neither of which is below the other are equal. -/
theorem charListLtb_connex : ∀ as bs, charListLtb as bs = false →
    charListLtb bs as = false → as = bs
  | [], [], _, _ => rfl
  | [], _ :: _, h, _ => by simp [charListLtb] at h
  | _ :: _, [], _, h => by simp [charListLtb] at h
  | a :: as, b :: bs, h1, h2 => by
    simp only [charListLtb] at h1 h2
    by_cases hab : a.toNat < b.toNat
    · rw [if_pos hab] at h1
      exact absurd h1 (by simp)
    · by_cases hba : b.toNat < a.toNat
      · rw [if_pos hba] at h2
        exact absurd h2 (by simp)
      · rw [if_neg hab, if_neg hba] at h1
        rw [if_neg hba, if_neg hab] at h2
        rw [char_toNat_inj (by omega : a.toNat = b.toNat),
          charListLtb_connex as bs h1 h2]

/-- `strLe` is reflexive. -/
theorem strLe_refl (a : String) : strLe a a := by
  unfold strLe strLeb
  rw [charListLtb_irrefl]
  rfl

/-- `strLe` is total. -/
theorem strLe_total (a b : String) : strLe a b ∨ strLe b a := by
  unfold strLe strLeb
  by_cases h : charListLtb b.data a.data = true
  · right
    rw [charListLtb_asymm _ _ h]
    rfl
  · left
    rw [Bool.not_eq_true] at h
    rw [h]
    rfl

/-- `strLe` is transitive. -/
theorem strLe_trans (a b c : String) (h1 : strLe a b) (h2 : strLe b c) :
    strLe a c := by
  unfold strLe strLeb at h1 h2 ⊢
  rw [Bool.not_eq_true'] at h1 h2 ⊢
  by_cases hca : charListLtb c.data a.data = true
  · exfalso
    by_cases hab : charListLtb a.data b.data = true
    · by_cases hbc : charListLtb b.data c.data = true
      · have hac := charListLtb_trans _ _ _ hab hbc
        rw [charListLtb_asymm _ _ hac] at hca
        exact absurd hca (by simp)
      · have hbceq : b.data = c.data :=
          charListLtb_connex _ _ (Bool.not_eq_true _ ▸ hbc) h2
        rw [← hbceq] at hca
        rw [hca] at h1
        exact absurd h1 (by simp)
    · have habeq : a.data = b.data :=
        charListLtb_connex _ _ (Bool.not_eq_true _ ▸ hab) h1
      rw [← habeq] at h2
      rw [hca] at h2
      exact absurd h2 (by simp)
  · rw [Bool.not_eq_true] at hca
    exact hca

/-- `strLe` is antisymmetric. -/
theorem strLe_antisymm (a b : String) (h1 : strLe a b) (h2 : strLe b a) :
    a = b := by
  unfold strLe strLeb at h1 h2
  rw [Bool.not_eq_true'] at h1 h2
  have hd : a.data = b.data := charListLtb_connex _ _ h2 h1
  cases a
  cases b
  exact congrArg String.mk hd

/-- The sorted date list is sorted under `strLe`. -/
theorem sortStrings_sorted (l : List String) :
    (sortStrings l).Pairwise strLe :=
  @List.sorted_insertionSort String strLe _ ⟨strLe_total⟩
    ⟨fun a b c => strLe_trans a b c⟩ l

/-- The default-last element of a nonempty list is a member. -/
theorem getLastD_mem {α : Type _} :
    ∀ (l : List α) (d : α), l ≠ [] → l.getLastD d ∈ l
  | [], _, h => absurd rfl h
  | a :: l, d, _ => by
    rw [List.getLastD_cons]
    cases l with
    | nil => simp [List.getLastD]
    | cons b t =>
      exact List.mem_cons_of_mem _ (getLastD_mem (b :: t) a (by simp))

/-- In a `strLe`-sorted list, every element precedes the last. -/
theorem pairwise_strLe_getLastD : ∀ l : List String, l.Pairwise strLe →
    ∀ s ∈ l, strLe s (l.getLastD "")
  | [], _, s, hs => absurd hs (by simp)
  | [a], _, s, hs => by
    rw [List.mem_singleton] at hs
    subst hs
    exact strLe_refl s
  | a :: b :: t, hp, s, hs => by
    rw [List.getLastD_cons]
    rcases List.mem_cons.mp hs with rfl | hs2
    · exact (List.pairwise_cons.mp hp).1 _
        (getLastD_mem (b :: t) s (by simp))
    · exact pairwise_strLe_getLastD (b :: t)
        (List.pairwise_cons.mp hp).2 s hs2

/-- The code's "most recent" — the last element of the sorted list — is
the `strLe`-maximum of the dates. -/
theorem sorted_getLastD_eq_mostRecent (dates : List String) (m : String)
    (hne : dates ≠ []) (hm : IsMostRecent dates m) :
    (sortStrings dates).getLastD "" = m := by
  have hperm : List.Perm (sortStrings dates) dates :=
    List.perm_insertionSort strLe dates
  have hsne : sortStrings dates ≠ [] := by
    intro h
    have hlen := hperm.length_eq
    rw [h] at hlen
    exact hne (List.eq_nil_of_length_eq_zero hlen.symm)
  exact strLe_antisymm _ _
    (hm.2 _ (hperm.mem_iff.mp (getLastD_mem _ "" hsne)))
    (pairwise_strLe_getLastD _ (sortStrings_sorted dates) m
      (hperm.mem_iff.mpr hm.1))

/-- With a truthy recorded date for every completed day, the streak
computation never consults the clock. -/
theorem calculateStreaks_clock_independent (today1 today2 : String)
    (completedDays : List Nat) (completionDates : Nat → Option String)
    (hrec : ∀ d ∈ completedDays, ∃ s, completionDates d = some s ∧ s ≠ "") :
    calculateStreaks today1 completedDays completionDates =
      calculateStreaks today2 completedDays completionDates := by
  have hmap :
      (completedDays.map fun d => jsOrString (completionDates d) today1) =
        completedDays.map fun d => jsOrString (completionDates d) today2 := by
    apply List.map_congr_left
    intro d hd
    obtain ⟨s, hs, hne⟩ := hrec d hd
    simp [jsOrString, hs, hne]
  unfold calculateStreaks
  rw [hmap]

/-! ## Claim C7 — determinism of the two pipelines -/

/-- C7 counterexample: the streak pipeline reads the clock
(`new Date()`) whenever a completed day has no recorded date, so two
calls with identical `(completedDays, completionDates)` made on
different days return different statistics: with days `{1, 2}` and only
day 1 dated `"2024-01-01"`, a call on `2024-01-02` reports streaks of 2
while a call on `2024-03-05` reports streaks of 1. -/
theorem claim_C7_counterexample :
    calculateStreaks "2024-01-02" [1, 2]
        (fun day => if day = 1 then some "2024-01-01" else none) ≠
      calculateStreaks "2024-03-05" [1, 2]
        (fun day => if day = 1 then some "2024-01-01" else none) := by
  decide

/-- C7 (amended): the resolver pipeline is a pure function of
`(descriptor, translation, document)`, and the streak pipeline is a pure
function of `(completedDays, completionDates)` *and the current date*;
the clock dependence disappears exactly when every completed day has a
truthy recorded completion date, in which case two calls at different
times agree. -/
theorem claim_C7 (today1 today2 : String) (completedDays : List Nat)
    (completionDates : Nat → Option String)
    (hrec : ∀ d ∈ completedDays, ∃ s, completionDates d = some s ∧ s ≠ "") :
    calculateStreaks today1 completedDays completionDates =
      calculateStreaks today2 completedDays completionDates :=
  calculateStreaks_clock_independent today1 today2 completedDays
    completionDates hrec

/-- Witness for C7: two calls on different days agree when the single
completed day has a recorded date. -/
theorem claim_C7_witness :
    calculateStreaks "2024-02-02" [1]
        (fun day => if day = 1 then some "2024-01-01" else none) =
      calculateStreaks "2024-03-03" [1]
        (fun day => if day = 1 then some "2024-01-01" else none) :=
  claim_C7 "2024-02-02" "2024-03-03" [1] _ (by
    intro d hd
    simp only [List.mem_singleton] at hd
    subst hd
    exact ⟨"2024-01-01", by simp, by simp⟩)

/-! ## Claim C10 — marking a day complete -/

/-- C10: `handleComplete` followed by the `updateSettings` merge adds
exactly the current day to the completed-day set, points the
completion-date map at today's ISO date for that day while every other
day keeps its previous value, and leaves every other settings field
unchanged. -/
theorem claim_C10 (today : String) (settings : AppSettings) (k : Nat)
    (hk : k ≠ jsOrNat settings.currentDay 1) :
    (markComplete today settings).completedDays =
      some (insert (jsOrNat settings.currentDay 1)
        (settings.completedDays.getD ∅)) ∧
    completionDatesD (markComplete today settings)
        (jsOrNat settings.currentDay 1) = some today ∧
    completionDatesD (markComplete today settings) k =
      completionDatesD settings k ∧
    (markComplete today settings).translation = settings.translation ∧
    (markComplete today settings).uiLanguage = settings.uiLanguage ∧
    (markComplete today settings).fontSize = settings.fontSize ∧
    (markComplete today settings).theme = settings.theme ∧
    (markComplete today settings).selectedPlan = settings.selectedPlan ∧
    (markComplete today settings).currentDay = settings.currentDay := by
  unfold markComplete applyCompletionUpdate handleComplete completionDatesD
  refine ⟨rfl, ?_, ?_, rfl, rfl, rfl, rfl, rfl, rfl⟩
  · simp
  · simp [hk]

/-- A concrete settings value for the C10 witness. -/
def sampleSettings : AppSettings :=
  { translation := .ESV
    uiLanguage := "en"
    fontSize := 16
    theme := "light"
    selectedPlan := some "esveverydayinword"
    currentDay := some 3
    completedDays := some {1, 2}
    completionDates := some fun day =>
      if day = 1 then some "2024-01-01"
      else if day = 2 then some "2024-01-02" else none }

/-- Witness for C10 on `sampleSettings`: day 3 is stamped with today and
day 2 keeps its previous date. -/
theorem claim_C10_witness :
    completionDatesD (markComplete "2024-01-03" sampleSettings) 3 =
      some "2024-01-03" ∧
    completionDatesD (markComplete "2024-01-03" sampleSettings) 2 =
      completionDatesD sampleSettings 2 :=
  ⟨(claim_C10 "2024-01-03" sampleSettings 2 (by decide)).2.1,
   (claim_C10 "2024-01-03" sampleSettings 2 (by decide)).2.2.1⟩

/-! ## Claim C9 — nonempty completion data gives positive streaks -/

/-- With any remaining fuel, the backwards walk counts the starting date
itself when it is present. -/
theorem countBack_pos {dates : List String} {cur : String} {fuel : Nat}
    (h : cur ∈ dates) : 1 ≤ countBack dates cur (fuel + 1) := by
  unfold countBack
  rw [if_pos h]
  omega

/-- Each longest-streak step leaves the running count positive. -/
theorem longestStep_run_pos (acc : Nat × Nat × Option String)
    (s : String) : 1 ≤ (longestStep acc s).2.1 := by
  rcases acc with ⟨l, r, _ | last⟩
  · simp [longestStep]
  · simp only [longestStep]
    split
    · dsimp only
      omega
    · dsimp only
      omega

/-- After scanning at least one date (or starting from a positive count)
the running count is positive. -/
theorem foldl_longestStep_run_pos :
    ∀ (l : List String) (acc : Nat × Nat × Option String),
      (l ≠ [] ∨ 1 ≤ acc.2.1) → 1 ≤ (l.foldl longestStep acc).2.1
  | [], acc, h => by
    rcases h with h | h
    · exact absurd rfl h
    · simpa using h
  | s :: t, acc, _ => by
    have := foldl_longestStep_run_pos t (longestStep acc s)
      (Or.inr (longestStep_run_pos acc s))
    simpa using this

/-- A sorted list is a permutation of its input, so it keeps its
length. -/
theorem sortStrings_length (l : List String) :
    (sortStrings l).length = l.length :=
  (List.perm_insertionSort _ l).length_eq

/-- C9: for a nonempty completed-day list (with well-formed stored
dates, the only inputs on which the source's date round-trips are
defined), both the current streak and the longest streak are at least 1:
the most recent sorted date always passes the first membership test of
the backwards walk, and the longest-streak scan starts its run counter
at 1. -/
theorem claim_C9 (today : String) (completedDays : List Nat)
    (completionDates : Nat → Option String)
    (hne : completedDays ≠ [])
    (_hval : ∀ d s, d ∈ completedDays → completionDates d = some s →
      isValidISODate s = true)
    (_htoday : isValidISODate today = true) :
    1 ≤ (calculateStreaks today completedDays completionDates).currentStreak ∧
    1 ≤ (calculateStreaks today completedDays completionDates).longestStreak := by
  unfold calculateStreaks
  rw [if_neg (by simpa using hne)]
  dsimp only
  have hnil :
      sortStrings (completedDays.map fun d =>
        jsOrString (completionDates d) today) ≠ [] := by
    intro hcon
    have := sortStrings_length (completedDays.map fun d =>
      jsOrString (completionDates d) today)
    rw [hcon] at this
    simp at this
    exact hne (List.eq_nil_of_length_eq_zero this.symm)
  constructor
  · exact countBack_pos (getLastD_mem _ "" hnil)
  · unfold longestStreakOf
    dsimp only
    exact le_max_of_le_right (foldl_longestStep_run_pos _ _ (Or.inl hnil))

/-- Witness for C9: one completed day, dated yesterday relative to a
concrete clock value. -/
theorem claim_C9_witness :
    1 ≤ (calculateStreaks "2024-01-02" [1]
        (fun day => if day = 1 then some "2024-01-01" else none)).currentStreak ∧
    1 ≤ (calculateStreaks "2024-01-02" [1]
        (fun day => if day = 1 then some "2024-01-01" else none)).longestStreak :=
  claim_C9 "2024-01-02" [1] _ (by decide)
    (by
      intro d s hd hs
      simp only [List.mem_singleton] at hd
      subst hd
      simp only [if_pos] at hs
      injection hs with hs
      rw [← hs]
      decide)
    (by decide)

/-! ## Claim C5 — missing chapters are skipped, not fatal -/

/-- A nonempty chapter range visits the start chapter first and then the
strictly later chapters. -/
theorem chapterRange_cons (info : PassageInfo)
    (h : info.startChapter ≤ info.endChapter) :
    chapterRange info =
      info.startChapter ::
        List.range' (info.startChapter + 1)
          (info.endChapter - info.startChapter) := by
  unfold chapterRange
  have hn : info.endChapter + 1 - info.startChapter =
      (info.endChapter - info.startChapter) + 1 := by omega
  rw [hn, List.range'_succ]

/-- A flat map over chapters that all contribute nothing is empty. -/
theorem flatMap_nil_of_forall {α β : Type _} (l : List α) (f : α → List β)
    (h : ∀ x ∈ l, f x = []) : l.flatMap f = [] := by
  induction l with
  | nil => rfl
  | cons a t ih =>
    rw [List.flatMap_cons, h a (List.mem_cons_self a t),
      ih fun x hx => h x (List.mem_cons_of_mem a hx)]
    rfl

/-- A chapter missing from the keyed book contributes nothing. -/
theorem esvChapterVerses_missing (bookData : ESVBook) (info : PassageInfo)
    (c : Nat) (h : bookData.lookup c = none) :
    esvChapterVerses bookData info c = [] := by
  unfold esvChapterVerses
  rw [h]

/-- A chapter with no flat records contributes nothing. -/
theorem cuvsChapterVerses_missing (bookVerses : List CUVSRecord)
    (info : PassageInfo) (c : Nat)
    (h : bookVerses.filter (fun v => decide (v.chapter = c)) = []) :
    cuvsChapterVerses bookVerses info c = [] := by
  unfold cuvsChapterVerses
  rw [h]
  rfl

/-- ESV half of C5: when every chapter after the start chapter is
missing, the resolver returns exactly the start chapter's window. -/
theorem getVersesESVBook_skip (bookData : ESVBook) (info : PassageInfo)
    (chapterData : ESVChapter)
    (hlt : info.startChapter < info.endChapter)
    (hmiss : ∀ c, info.startChapter < c → c ≤ info.endChapter →
      bookData.lookup c = none)
    (hpres : bookData.lookup info.startChapter = some chapterData) :
    getVersesESVBook bookData info =
      esvWindow chapterData info.startVerse 999 := by
  unfold getVersesESVBook
  rw [chapterRange_cons info (le_of_lt hlt), List.flatMap_cons]
  have h1 : esvChapterVerses bookData info info.startChapter =
      esvWindow chapterData info.startVerse 999 := by
    unfold esvChapterVerses
    rw [hpres]
    unfold lowerBound esvUpperBound
    rw [if_pos rfl, if_neg (by omega)]
  have h2 : (List.range' (info.startChapter + 1)
      (info.endChapter - info.startChapter)).flatMap
        (esvChapterVerses bookData info) = [] := by
    apply flatMap_nil_of_forall
    intro c hc
    rw [List.mem_range'] at hc
    obtain ⟨i, hi, rfl⟩ := hc
    exact esvChapterVerses_missing _ _ _ (hmiss _ (by omega) (by omega))
  rw [h1, h2, List.append_nil]

/-- CUVS half of C5: when every chapter after the start chapter has no
records, the resolver returns exactly the start chapter's window. -/
theorem getVersesCUVSBook_skip (bookVerses : List CUVSRecord)
    (info : PassageInfo)
    (hlt : info.startChapter < info.endChapter)
    (hmiss : ∀ c, info.startChapter < c → c ≤ info.endChapter →
      bookVerses.filter (fun v => decide (v.chapter = c)) = []) :
    getVersesCUVSBook bookVerses info =
      cuvsChapterVerses bookVerses info info.startChapter := by
  unfold getVersesCUVSBook
  rw [chapterRange_cons info (le_of_lt hlt), List.flatMap_cons]
  have h2 : (List.range' (info.startChapter + 1)
      (info.endChapter - info.startChapter)).flatMap
        (cuvsChapterVerses bookVerses info) = [] := by
    apply flatMap_nil_of_forall
    intro c hc
    rw [List.mem_range'] at hc
    obtain ⟨i, hi, rfl⟩ := hc
    exact cuvsChapterVerses_missing _ _ _ (hmiss _ (by omega) (by omega))
  rw [h2, List.append_nil]

/-- C5: in both document shapes, chapters of the requested range that are
absent from the document are skipped and the present chapters still
contribute: when every chapter after the start chapter is missing, the
result is exactly the start chapter's verse window (in particular, a
two-chapter passage with chapter 2 missing yields precisely chapter 1's
verses); no exception is possible since the resolvers are total
functions. -/
theorem claim_C5 :
    (∀ (bookData : ESVBook) (info : PassageInfo) (chapterData : ESVChapter),
      info.startChapter < info.endChapter →
      (∀ c, info.startChapter < c → c ≤ info.endChapter →
        bookData.lookup c = none) →
      bookData.lookup info.startChapter = some chapterData →
      getVersesESVBook bookData info =
        esvWindow chapterData info.startVerse 999) ∧
    (∀ (bookVerses : List CUVSRecord) (info : PassageInfo),
      info.startChapter < info.endChapter →
      (∀ c, info.startChapter < c → c ≤ info.endChapter →
        bookVerses.filter (fun v => decide (v.chapter = c)) = []) →
      getVersesCUVSBook bookVerses info =
        cuvsChapterVerses bookVerses info info.startChapter) :=
  ⟨fun bookData info chapterData hlt hmiss hpres =>
      getVersesESVBook_skip bookData info chapterData hlt hmiss hpres,
   fun bookVerses info hlt hmiss =>
      getVersesCUVSBook_skip bookVerses info hlt hmiss⟩

set_option maxRecDepth 8000 in
/-- Witness for C5: the two-chapter passage `"Genesis 1:1-2:25"` against
a keyed book holding only chapter 1 yields exactly chapter 1's two
verses — a nonempty result. -/
theorem claim_C5_witness :
    getVersesESVBook [(1, [(1, "In the beginning"), (2, "And the earth")])]
        ⟨"Genesis", 1, 1, 2, 25⟩ =
      esvWindow [(1, "In the beginning"), (2, "And the earth")] 1 999 ∧
    esvWindow [(1, "In the beginning"), (2, "And the earth")] 1 999 =
      [⟨1, "In the beginning"⟩, ⟨2, "And the earth"⟩] :=
  ⟨claim_C5.1 [(1, [(1, "In the beginning"), (2, "And the earth")])]
      ⟨"Genesis", 1, 1, 2, 25⟩ [(1, "In the beginning"), (2, "And the earth")]
      (by decide)
      (by
        intro c h1 h2
        have h1a : 1 < c := h1
        have h2a : c ≤ 2 := h2
        have hc : c = 2 := by omega
        subst hc
        decide)
      (by decide),
   by decide⟩

/-! ## Claim C6 — output ordering -/

/-- `esvVerseAt` keeps the queried verse number. -/
theorem esvVerseAt_verse (chapterData : ESVChapter) (v : Nat) (x : Verse)
    (h : esvVerseAt chapterData v = some x) : x.verse = v := by
  unfold esvVerseAt at h
  split at h
  · split at h
    · exact absurd h (by simp)
    · injection h with h
      rw [← h]
  · exact absurd h (by simp)

/-- The keyed window is strictly increasing in verse number. -/
theorem esvWindow_pairwise (chapterData : ESVChapter) (vLo vHi : Nat) :
    (esvWindow chapterData vLo vHi).Pairwise fun a b => a.verse < b.verse := by
  unfold esvWindow
  rw [List.pairwise_filterMap]
  apply List.Pairwise.imp ?_ (List.pairwise_lt_range' vLo (vHi + 1 - vLo))
  intro a b hab x hx y hy
  rw [esvVerseAt_verse chapterData a x (Option.mem_def.mp hx),
    esvVerseAt_verse chapterData b y (Option.mem_def.mp hy)]
  exact hab

/-- Each annotated ESV chapter block is strictly `(chapter, verse)`
ordered. -/
theorem esvChapterVerses_annotated (bookData : ESVBook) (info : PassageInfo)
    (c : Nat) :
    ((esvChapterVerses bookData info c).map fun v => (c, v)).Pairwise posLt := by
  rw [List.pairwise_map]
  unfold esvChapterVerses
  split
  · simp
  · exact (esvWindow_pairwise _ _ _).imp fun h => Or.inr ⟨rfl, h⟩

/-- The chapters of a passage are visited in strictly increasing
order. -/
theorem chapterRange_pairwise (info : PassageInfo) :
    (chapterRange info).Pairwise (· < ·) := by
  unfold chapterRange
  exact List.pairwise_lt_range' _ _

/-- Chapter-annotated blocks over strictly increasing chapters compose
to a list ordered by any relation that holds across increasing
chapters. -/
theorem pairwise_flatMap_annotated {R : Nat × Verse → Nat × Verse → Prop}
    (hcross : ∀ a b : Nat × Verse, a.1 < b.1 → R a b) :
    ∀ (chapters : List Nat), chapters.Pairwise (· < ·) →
      ∀ f : Nat → List Verse,
      (∀ c, ((f c).map fun v => (c, v)).Pairwise R) →
      (chapters.flatMap fun c => (f c).map fun v => (c, v)).Pairwise R
  | [], _, f, _ => by simp
  | c :: cs, hch, f, hinner => by
    rw [List.flatMap_cons, List.pairwise_append]
    refine ⟨hinner c, pairwise_flatMap_annotated hcross cs
      (List.pairwise_cons.mp hch).2 f hinner, ?_⟩
    intro x hx y hy
    obtain ⟨vx, _, rfl⟩ := List.mem_map.mp hx
    obtain ⟨c2, hc2, hy2⟩ := List.mem_flatMap.mp hy
    obtain ⟨vy, _, rfl⟩ := List.mem_map.mp hy2
    exact hcross _ _ ((List.pairwise_cons.mp hch).1 c2 hc2)

/-- The annotated ESV output is strictly `(chapter, verse)` ordered. -/
theorem esvAnnotated_pairwise (bookData : ESVBook) (info : PassageInfo) :
    (esvAnnotated bookData info).Pairwise posLt := by
  unfold esvAnnotated
  exact pairwise_flatMap_annotated (fun a b h => Or.inl h) _
    (chapterRange_pairwise info) _ (esvChapterVerses_annotated bookData info)

/-- The CUVS window is sorted by verse number. -/
theorem cuvsChapterWindow_sorted (chapterVerses : List CUVSRecord)
    (vLo vHi : Nat) :
    (cuvsChapterWindow chapterVerses vLo vHi).Pairwise verseLe :=
  List.sorted_insertionSort verseLe _

/-- If the chapter's records carry distinct verse numbers, so does the
sorted window. -/
theorem cuvsChapterWindow_verses_nodup (chapterVerses : List CUVSRecord)
    (vLo vHi : Nat) (hnd : (chapterVerses.map fun r => r.verse).Nodup) :
    ((cuvsChapterWindow chapterVerses vLo vHi).map fun x => x.verse).Nodup := by
  unfold cuvsChapterWindow
  rw [((List.perm_insertionSort verseLe _).map fun x : Verse => x.verse).nodup_iff]
  rw [List.map_map]
  exact ((List.filter_sublist _).map fun r : CUVSRecord => r.verse).nodup hnd

/-- With distinct verse numbers the CUVS window is strictly
increasing. -/
theorem cuvsChapterWindow_pairwise_strict (chapterVerses : List CUVSRecord)
    (vLo vHi : Nat) (hnd : (chapterVerses.map fun r => r.verse).Nodup) :
    (cuvsChapterWindow chapterVerses vLo vHi).Pairwise
      fun a b => a.verse < b.verse := by
  have hs := cuvsChapterWindow_sorted chapterVerses vLo vHi
  have hn := cuvsChapterWindow_verses_nodup chapterVerses vLo vHi hnd
  have hne : (cuvsChapterWindow chapterVerses vLo vHi).Pairwise
      fun a b => a.verse ≠ b.verse := List.pairwise_map.mp hn
  exact (hs.and hne).imp fun h => lt_of_le_of_ne h.1 h.2

/-- Restricting a record list to one chapter keeps distinct verse
numbers when the whole book has distinct `(chapter, verse)` keys. -/
theorem chapter_verses_nodup (bookVerses : List CUVSRecord) (c : Nat)
    (hnd : (bookVerses.map fun r => (r.chapter, r.verse)).Nodup) :
    ((bookVerses.filter fun v => decide (v.chapter = c)).map
      fun r => r.verse).Nodup := by
  have hsub : ((bookVerses.filter fun v => decide (v.chapter = c)).map
      fun r => (r.chapter, r.verse)).Nodup :=
    ((List.filter_sublist _).map fun r : CUVSRecord =>
      (r.chapter, r.verse)).nodup hnd
  have heq : ((bookVerses.filter fun v => decide (v.chapter = c)).map
      fun r => (r.chapter, r.verse)) =
      ((bookVerses.filter fun v => decide (v.chapter = c)).map
        fun r => r.verse).map fun v => (c, v) := by
    rw [List.map_map]
    apply List.map_congr_left
    intro r hr
    have hc := List.of_mem_filter hr
    simp only [decide_eq_true_eq] at hc
    simp [hc]
  rw [heq] at hsub
  exact hsub.of_map _

/-- Each annotated CUVS chapter block is non-strictly `(chapter, verse)`
ordered. -/
theorem cuvsChapterVerses_annotated_le (bookVerses : List CUVSRecord)
    (info : PassageInfo) (c : Nat) :
    ((cuvsChapterVerses bookVerses info c).map fun v => (c, v)).Pairwise
      posLe := by
  rw [List.pairwise_map]
  unfold cuvsChapterVerses
  dsimp only
  split
  · simp
  · exact (cuvsChapterWindow_sorted _ _ _).imp fun h => Or.inr ⟨rfl, h⟩

/-- With distinct `(chapter, verse)` keys, each annotated CUVS chapter
block is strictly ordered. -/
theorem cuvsChapterVerses_annotated_strict (bookVerses : List CUVSRecord)
    (info : PassageInfo) (c : Nat)
    (hnd : (bookVerses.map fun r => (r.chapter, r.verse)).Nodup) :
    ((cuvsChapterVerses bookVerses info c).map fun v => (c, v)).Pairwise
      posLt := by
  rw [List.pairwise_map]
  unfold cuvsChapterVerses
  dsimp only
  split
  · simp
  · exact (cuvsChapterWindow_pairwise_strict _ _ _
      (chapter_verses_nodup bookVerses c hnd)).imp fun h => Or.inr ⟨rfl, h⟩

/-- Dropping the chapter annotations recovers the resolver output. -/
theorem annotated_map_snd (chapters : List Nat) (f : Nat → List Verse) :
    (chapters.flatMap fun c => (f c).map fun v => (c, v)).map Prod.snd =
      chapters.flatMap f := by
  rw [List.map_flatMap]
  apply List.flatMap_congr
  intro c _
  rw [List.map_map]
  simp

/-- C6 counterexample: a flat document holding the same `(chapter,
verse)` position twice makes the resolver emit that position twice, so
the output is not duplicate-free: the book `"Foo"` with two records for
chapter 1 verse 1 and the reference `"Foo 1:1"` yields verse 1 twice,
and the annotated output violates strict `(chapter, verse)` order. -/
theorem claim_C6_counterexample :
    getVersesForPassageCUVS
        [⟨"Foo", 1, 1, 1, "a"⟩, ⟨"Foo", 1, 1, 1, "a"⟩] "Foo 1:1" =
      [⟨1, "a"⟩, ⟨1, "a"⟩] ∧
    ¬ (cuvsAnnotated [⟨"Foo", 1, 1, 1, "a"⟩, ⟨"Foo", 1, 1, 1, "a"⟩]
        ⟨"Foo", 1, 1, 1, 1⟩).Pairwise posLt := by
  constructor
  · decide
  · decide

/-- C6 (amended): the keyed-shape output is always sorted by
`(chapter ascending, verse ascending)` with no duplicate positions
(strict order on the chapter-annotated output), and dropping the
annotations gives the resolver's verse list.  The flat-shape output is
always sorted non-strictly by `(chapter, verse)`; it is strictly sorted
— duplicate-free — provided the supplied document holds at most one
record per `(chapter, verse)` position, which a well-formed Bible
document does, but nothing in the code enforces. -/
theorem claim_C6 (bookData : ESVBook) (bookVerses anyVerses : List CUVSRecord)
    (info : PassageInfo)
    (hnd : (bookVerses.map fun r => (r.chapter, r.verse)).Nodup) :
    (esvAnnotated bookData info).Pairwise posLt ∧
    (esvAnnotated bookData info).map Prod.snd =
      getVersesESVBook bookData info ∧
    (cuvsAnnotated anyVerses info).Pairwise posLe ∧
    (cuvsAnnotated bookVerses info).Pairwise posLt ∧
    (cuvsAnnotated bookVerses info).map Prod.snd =
      getVersesCUVSBook bookVerses info := by
  refine ⟨esvAnnotated_pairwise bookData info,
    annotated_map_snd _ _, ?_, ?_, annotated_map_snd _ _⟩
  · exact pairwise_flatMap_annotated (fun a b h => Or.inl h) _
      (chapterRange_pairwise info) _
      (cuvsChapterVerses_annotated_le anyVerses info)
  · exact pairwise_flatMap_annotated (fun a b h => Or.inl h) _
      (chapterRange_pairwise info) _
      fun c => cuvsChapterVerses_annotated_strict bookVerses info c hnd

set_option maxRecDepth 8000 in
/-- Witness for C6 on concrete two-chapter documents of both shapes. -/
theorem claim_C6_witness :
    (esvAnnotated [(1, [(1, "a"), (2, "b")]), (2, [(1, "c")])]
        ⟨"Genesis", 1, 1, 2, 1⟩).Pairwise posLt ∧
    (cuvsAnnotated [⟨"创世记", 1, 1, 2, "b"⟩, ⟨"创世记", 1, 1, 1, "a"⟩]
        ⟨"创世记", 1, 1, 1, 2⟩).Pairwise posLt :=
  ⟨(claim_C6 [(1, [(1, "a"), (2, "b")]), (2, [(1, "c")])] [] []
      ⟨"Genesis", 1, 1, 2, 1⟩ (by decide)).1,
   (claim_C6 [] [⟨"创世记", 1, 1, 2, "b"⟩, ⟨"创世记", 1, 1, 1, "a"⟩] []
      ⟨"创世记", 1, 1, 1, 2⟩ (by decide)).2.2.2.1⟩

/-! ## Claim C3 — current-streak characterization

The backwards walk of the current-streak loop is characterised: it
counts exactly the consecutive calendar days ending at the most recent
completion date that appear among the completion dates.  The only
subtlety is that the loop's fuel (in the model) must cover the walk; the
walk visits pairwise distinct date strings because stepping a valid date
back strictly decreases its numeric `YYYYMMDD` key, so it can visit at
most as many dates as the list holds. -/

/-- Unfolding a `daysBack` step from the outside. -/
theorem daysBack_succ (k : Nat) (s : String) :
    daysBack (k + 1) s = prevDay (daysBack k s) := by
  induction k generalizing s with
  | zero => rfl
  | succ k ih =>
    show daysBack (k + 1) (prevDay s) = prevDay (daysBack (k + 1) s)
    rw [ih (prevDay s)]
    rfl

/-- The digit characters round-trip through `digitVal?`. -/
theorem digitVal_digitChar (n : Nat) (h : n < 10) :
    digitVal? (digitChar n) = some n := by
  interval_cases n <;> rfl

/-- Every month has at most 31 days. -/
theorem daysInMonth_le (y m : Nat) : daysInMonth y m ≤ 31 := by
  unfold daysInMonth
  split
  · split <;> omega
  · split <;> omega

/-- Formatting then parsing a date with in-range components is the
identity. -/
theorem parse_format (y m d : Nat) (hy : y ≤ 9999) (hm : m ≤ 99)
    (hd : d ≤ 99) :
    parseISODate (formatISODate y m d) = some (y, m, d) := by
  unfold formatISODate parseISODate pad4 pad2
  simp only [List.cons_append, List.nil_append]
  rw [if_pos (by simp)]
  rw [digitVal_digitChar _ (Nat.mod_lt _ (by omega)),
    digitVal_digitChar _ (Nat.mod_lt _ (by omega)),
    digitVal_digitChar _ (Nat.mod_lt _ (by omega)),
    digitVal_digitChar _ (Nat.mod_lt _ (by omega)),
    digitVal_digitChar _ (Nat.mod_lt _ (by omega)),
    digitVal_digitChar _ (Nat.mod_lt _ (by omega)),
    digitVal_digitChar _ (Nat.mod_lt _ (by omega)),
    digitVal_digitChar _ (Nat.mod_lt _ (by omega))]
  simp only [Option.some.injEq, Prod.mk.injEq]
  refine ⟨?_, ?_, ?_⟩ <;> omega

/-- Unpacking a valid ISO date string. -/
theorem isValidISODate_spec (s : String) (h : isValidISODate s = true) :
    ∃ y m d, parseISODate s = some (y, m, d) ∧ 1 ≤ y ∧ y ≤ 9999 ∧
      1 ≤ m ∧ m ≤ 12 ∧ 1 ≤ d ∧ d ≤ daysInMonth y m := by
  unfold isValidISODate at h
  rcases hp : parseISODate s with _ | ⟨y, m, d⟩ <;> rw [hp] at h
  · exact absurd h (by simp)
  · dsimp only at h
    simp only [Bool.and_eq_true, decide_eq_true_eq] at h
    refine ⟨y, m, d, rfl, ?_, ?_, ?_, ?_, ?_, ?_⟩ <;> tauto

/-- Stepping a valid date one day back strictly decreases its numeric
`YYYYMMDD` key. -/
theorem serialKey_prevDay_lt (s : String) (h : isValidISODate s = true) :
    serialKey (prevDay s) < serialKey s := by
  obtain ⟨y, m, d, hp, hy1, hy2, hm1, hm2, hd1, hd2⟩ := isValidISODate_spec s h
  have hdm : daysInMonth y m ≤ 31 := daysInMonth_le y m
  have hk2 : serialKey s = y * 10000 + m * 100 + d := by
    unfold serialKey
    rw [hp]
  have hkey : ∀ y2 m2 d2, y2 ≤ 9999 → m2 ≤ 99 → d2 ≤ 99 →
      serialKey (formatISODate y2 m2 d2) = y2 * 10000 + m2 * 100 + d2 := by
    intro y2 m2 d2 h1 h2 h3
    unfold serialKey
    rw [parse_format y2 m2 d2 h1 h2 h3]
  by_cases hd2a : 2 ≤ d
  · have hpd : prevDay s = formatISODate y m (d - 1) := by
      unfold prevDay
      rw [hp]
      show prevDayCivil y m d = _
      unfold prevDayCivil prevCivil
      rw [if_pos hd2a]
    rw [hpd, hkey y m (d - 1) (by omega) (by omega) (by omega), hk2]
    omega
  · by_cases hm2a : 2 ≤ m
    · have hdm2 : daysInMonth y (m - 1) ≤ 31 := daysInMonth_le y (m - 1)
      have hpd : prevDay s = formatISODate y (m - 1) (daysInMonth y (m - 1)) := by
        unfold prevDay
        rw [hp]
        show prevDayCivil y m d = _
        unfold prevDayCivil prevCivil
        rw [if_neg hd2a, if_pos hm2a]
      rw [hpd, hkey y (m - 1) (daysInMonth y (m - 1)) (by omega) (by omega)
        (by omega), hk2]
      omega
    · have hpd : prevDay s = formatISODate (y - 1) 12 31 := by
        unfold prevDay
        rw [hp]
        show prevDayCivil y m d = _
        unfold prevDayCivil prevCivil
        rw [if_neg hd2a, if_neg hm2a]
      rw [hpd, hkey (y - 1) 12 31 (by omega) (by omega) (by omega), hk2]
      omega

/-- The walk visits pairwise distinct dates, so a walk that stays inside
the date list takes at most `dates.length` steps. -/
theorem daysBack_nodup_bound (dates : List String) (m : String) (k : Nat)
    (hdval : ∀ s ∈ dates, isValidISODate s = true)
    (hrun : ∀ i < k, daysBack i m ∈ dates) :
    k ≤ dates.length := by
  have hdec : ∀ i j, i < j → j < k →
      serialKey (daysBack j m) < serialKey (daysBack i m) := by
    intro i j hij hjk
    induction j with
    | zero => omega
    | succ j ih =>
      have hstep : serialKey (daysBack (j + 1) m) <
          serialKey (daysBack j m) := by
        rw [daysBack_succ]
        exact serialKey_prevDay_lt _ (hdval _ (hrun j (by omega)))
      rcases Nat.lt_or_ge i j with hlt | hge
      · exact lt_trans hstep (ih hlt (by omega))
      · have : i = j := by omega
        subst this
        exact hstep
  have hnodup : ((List.range k).map fun i => daysBack i m).Nodup := by
    apply List.Nodup.map_on ?_ (List.nodup_range k)
    intro i hi j hj heq
    rw [List.mem_range] at hi hj
    by_contra hne2
    rcases Nat.lt_or_ge i j with hlt | hge
    · have := hdec i j hlt hj
      rw [heq] at this
      exact lt_irrefl _ this
    · have hlt2 : j < i := by omega
      have := hdec j i hlt2 hi
      rw [heq] at this
      exact lt_irrefl _ this
  have hsub : ((List.range k).map fun i => daysBack i m) ⊆ dates := by
    intro x hx
    obtain ⟨i, hi, rfl⟩ := List.mem_map.mp hx
    exact hrun i (List.mem_range.mp hi)
  have hlen := (List.subperm_of_subset hnodup hsub).length_le
  simpa using hlen

/-- The fuelled walk returns exactly the index of the first gap,
whenever the fuel covers it. -/
theorem countBack_eq_of_gap (dates : List String) :
    ∀ (k fuel : Nat) (m : String),
      (∀ i < k, daysBack i m ∈ dates) → daysBack k m ∉ dates →
      k ≤ fuel → countBack dates m fuel = k
  | 0, 0, _, _, _, _ => rfl
  | 0, _ + 1, m, _, hgap, _ => by
    have hgap2 : m ∉ dates := hgap
    unfold countBack
    rw [if_neg hgap2]
  | k + 1, 0, _, _, _, hle => absurd hle (by omega)
  | k + 1, fuel + 1, m, hrun, hgap, hle => by
    have hmem : m ∈ dates := hrun 0 (by omega)
    have hgap2 : daysBack k (prevDay m) ∉ dates := hgap
    have ih := countBack_eq_of_gap dates k fuel (prevDay m)
      (fun i hi => hrun (i + 1) (by omega)) hgap2 (by omega)
    unfold countBack
    rw [if_pos hmem, ih]

/-- The full current-streak computation of the source: sort, take the
last element, walk backwards with fuel `length + 1`.  It returns the
first-gap index `k` for the most recent date. -/
theorem countBack_sorted_eq (dates : List String) (m : String) (k : Nat)
    (hne : dates ≠ [])
    (hdval : ∀ s ∈ dates, isValidISODate s = true)
    (hm : IsMostRecent dates m)
    (hrun : ∀ i < k, daysBack i m ∈ dates)
    (hgap : daysBack k m ∉ dates) :
    countBack (sortStrings dates) ((sortStrings dates).getLastD "")
      ((sortStrings dates).length + 1) = k := by
  have hperm : List.Perm (sortStrings dates) dates :=
    List.perm_insertionSort strLe dates
  rw [sorted_getLastD_eq_mostRecent dates m hne hm]
  apply countBack_eq_of_gap
  · intro i hi
    exact hperm.mem_iff.mpr (hrun i hi)
  · intro hcon
    exact hgap (hperm.mem_iff.mp hcon)
  · have hb := daysBack_nodup_bound dates m k hdval hrun
    rw [sortStrings_length]
    omega

/-- C3: with a nonempty completed-day set whose completion dates are all
(truthily) recorded — and well-formed, as the application records them —
the current streak equals the number of consecutive calendar days ending
at the most recent completion date that each appear among the completion
dates: `k` such that the dates `m, m-1, …, m-(k-1)` are all present and
`m-k` is not.  The result does not depend on the current date: a streak
frozen in the past reports its full length. -/
theorem claim_C3 (today1 today2 : String) (completedDays : List Nat)
    (completionDates : Nat → Option String) (m : String) (k : Nat)
    (hne : completedDays ≠ [])
    (hrec : ∀ d ∈ completedDays, ∃ s, completionDates d = some s ∧ s ≠ "")
    (hval : ∀ d s, d ∈ completedDays → completionDates d = some s →
      isValidISODate s = true)
    (hm : IsMostRecent
      (completedDays.map fun d => jsOrString (completionDates d) today1) m)
    (hrun : ∀ i < k, daysBack i m ∈
      completedDays.map fun d => jsOrString (completionDates d) today1)
    (hgap : daysBack k m ∉
      completedDays.map fun d => jsOrString (completionDates d) today1) :
    (calculateStreaks today1 completedDays completionDates).currentStreak =
      k ∧
    calculateStreaks today1 completedDays completionDates =
      calculateStreaks today2 completedDays completionDates := by
  constructor
  · have hdval : ∀ s ∈ (completedDays.map fun d =>
        jsOrString (completionDates d) today1), isValidISODate s = true := by
      intro s hs
      obtain ⟨d, hd, rfl⟩ := List.mem_map.mp hs
      obtain ⟨t, ht, htne⟩ := hrec d hd
      have he : jsOrString (completionDates d) today1 = t := by
        simp [jsOrString, ht, htne]
      rw [he]
      exact hval d t hd ht
    have hne2 : (completedDays.map fun d =>
        jsOrString (completionDates d) today1) ≠ [] := by
      simpa using hne
    unfold calculateStreaks
    rw [if_neg (by simpa using hne)]
    dsimp only
    exact countBack_sorted_eq _ m k hne2 hdval hm hrun hgap
  · exact calculateStreaks_clock_independent today1 today2 completedDays
      completionDates hrec

/-- Witness for C3: two recorded consecutive days frozen in the past
give a current streak of 2 on any later calling day. -/
theorem claim_C3_witness :
    (calculateStreaks "2024-03-01" [1, 2]
      (fun day => if day = 1 then some "2024-01-01"
        else if day = 2 then some "2024-01-02" else none)).currentStreak =
      2 ∧
    calculateStreaks "2024-03-01" [1, 2]
        (fun day => if day = 1 then some "2024-01-01"
          else if day = 2 then some "2024-01-02" else none) =
      calculateStreaks "2024-04-01" [1, 2]
        (fun day => if day = 1 then some "2024-01-01"
          else if day = 2 then some "2024-01-02" else none) :=
  claim_C3 "2024-03-01" "2024-04-01" [1, 2] _ "2024-01-02" 2 (by decide)
    (by
      intro d hd
      simp only [List.mem_cons, List.not_mem_nil, or_false] at hd
      rcases hd with rfl | rfl
      · exact ⟨"2024-01-01", rfl, by decide⟩
      · exact ⟨"2024-01-02", rfl, by decide⟩)
    (by
      intro d t hd ht
      simp only [List.mem_cons, List.not_mem_nil, or_false] at hd
      rcases hd with rfl | rfl <;> simp at ht <;> subst ht <;> decide)
    (by
      unfold IsMostRecent
      decide)
    (by decide)
    (by decide)

/-! ## Claim C1 — the verse window bound and shape equivalence -/

/-- Full characterisation of a successful keyed verse lookup. -/
theorem esvVerseAt_eq_some (chapData : ESVChapter) (v : Nat) (x : Verse) :
    esvVerseAt chapData v = some x ↔
      chapData.lookup v = some x.text ∧ x.text ≠ "" ∧ x.verse = v := by
  unfold esvVerseAt
  rcases hl : chapData.lookup v with _ | t
  · simp
  · show (if t = "" then none else some (Verse.mk v t)) = some x ↔
      some t = some x.text ∧ x.text ≠ "" ∧ x.verse = v
    by_cases ht : t = ""
    · rw [if_pos ht]
      subst ht
      constructor
      · intro h
        exact absurd h (by simp)
      · rintro ⟨h1, h2, _⟩
        injection h1 with h1
        exact absurd h1.symm h2
    · rw [if_neg ht]
      constructor
      · intro h
        injection h with h
        subst h
        exact ⟨rfl, ht, rfl⟩
      · rintro ⟨h1, h2, h3⟩
        injection h1 with h1
        cases x
        simp only at h1 h3
        rw [h1, h3]

/-- A filter map over elements that all yield nothing is empty. -/
theorem filterMap_nil_of_forall {α β : Type _} (l : List α) (f : α → Option β)
    (h : ∀ x ∈ l, f x = none) : l.filterMap f = [] := by
  induction l with
  | nil => rfl
  | cons a t ih =>
    rw [List.filterMap_cons, h a (List.mem_cons_self a t)]
    exact ih fun x hx => h x (List.mem_cons_of_mem a hx)

/-- Membership in the verse window of the range loop. -/
theorem mem_range_window (lo hi v : Nat) :
    v ∈ List.range' lo (hi + 1 - lo) ↔ lo ≤ v ∧ v ≤ hi := by
  rw [List.mem_range']
  constructor
  · rintro ⟨i, hi2, rfl⟩
    omega
  · rintro ⟨h1, h2⟩
    exact ⟨v - lo, by omega, by omega⟩

/-- Membership in the keyed window. -/
theorem mem_esvWindow (chapData : ESVChapter) (lo hi : Nat) (x : Verse) :
    x ∈ esvWindow chapData lo hi ↔
      lo ≤ x.verse ∧ x.verse ≤ hi ∧ chapData.lookup x.verse = some x.text ∧
        x.text ≠ "" := by
  unfold esvWindow
  rw [List.mem_filterMap]
  constructor
  · rintro ⟨v, hv, hx⟩
    obtain ⟨h1, h2, h3⟩ := (esvVerseAt_eq_some chapData v x).mp hx
    rw [mem_range_window] at hv
    rw [h3]
    exact ⟨hv.1, hv.2, h1, h2⟩
  · rintro ⟨h1, h2, h3, h4⟩
    exact ⟨x.verse, (mem_range_window lo hi x.verse).mpr ⟨h1, h2⟩,
      (esvVerseAt_eq_some chapData x.verse x).mpr ⟨h3, h4, rfl⟩⟩

/-- Membership in the flat window. -/
theorem mem_cuvsChapterWindow (chVs : List CUVSRecord) (lo hi : Nat)
    (x : Verse) :
    x ∈ cuvsChapterWindow chVs lo hi ↔
      ∃ r ∈ chVs, lo ≤ r.verse ∧ r.verse ≤ hi ∧ r.verse = x.verse ∧
        r.text = x.text := by
  unfold cuvsChapterWindow
  rw [(List.perm_insertionSort verseLe _).mem_iff, List.mem_map]
  constructor
  · rintro ⟨r, hr, rfl⟩
    obtain ⟨hmem, hcond⟩ := List.mem_filter.mp hr
    simp only [Bool.and_eq_true, decide_eq_true_eq] at hcond
    exact ⟨r, hmem, hcond.1, hcond.2, rfl, rfl⟩
  · rintro ⟨r, hr, h1, h2, h3, h4⟩
    refine ⟨r, List.mem_filter.mpr ⟨hr, ?_⟩, ?_⟩
    · simp only [Bool.and_eq_true, decide_eq_true_eq]
      exact ⟨h1, h2⟩
    · cases x
      simp only at h3 h4
      rw [h3, h4]

/-- The seed of a maximum fold bounds nothing from above: the fold
result dominates it. -/
theorem foldl_max_init_le : ∀ (l : List Nat) (a : Nat), a ≤ l.foldl max a
  | [], a => le_refl a
  | x :: t, a => le_trans (le_max_left a x) (foldl_max_init_le t (max a x))

/-- Every element is bounded by the maximum fold. -/
theorem le_foldl_max_of_mem : ∀ (l : List Nat) (a x : Nat), x ∈ l →
    x ≤ l.foldl max a
  | y :: t, a, x, hx => by
    rcases List.mem_cons.mp hx with rfl | hx2
    · exact le_trans (le_max_right a x) (foldl_max_init_le t (max a x))
    · exact le_foldl_max_of_mem t (max a y) x hx2

/-- The maximum fold yields the seed or an element. -/
theorem foldl_max_mem : ∀ (l : List Nat) (a : Nat), l.foldl max a ∈ a :: l
  | [], a => List.mem_singleton.mpr rfl
  | x :: t, a => by
    show List.foldl max (max a x) t ∈ a :: x :: t
    rcases List.mem_cons.mp (foldl_max_mem t (max a x)) with h | h
    · rw [h]
      rcases Nat.le_total a x with hax | hxa
      · rw [max_eq_right hax]
        exact List.mem_cons_of_mem _ (List.mem_cons_self _ _)
      · rw [max_eq_left hxa]
        exact List.mem_cons_self _ _
    · exact List.mem_cons_of_mem _ (List.mem_cons_of_mem _ h)

/-- `Math.max` over a nonempty chapter's verse numbers is a verse number
actually present. -/
theorem cuvsMaxVerse_mem (l : List CUVSRecord) (h : l ≠ []) :
    cuvsMaxVerse l ∈ l.map fun r => r.verse := by
  unfold cuvsMaxVerse
  rcases List.mem_cons.mp (foldl_max_mem (l.map fun r => r.verse) 0)
    with h0 | hm
  · rcases l with _ | ⟨r, t⟩
    · exact absurd rfl h
    · have hle : r.verse ≤ (((r :: t).map fun q => q.verse).foldl max 0) :=
        le_foldl_max_of_mem _ 0 r.verse (by simp)
      rw [h0] at hle
      have hz : r.verse = 0 := by omega
      rw [h0, ← hz]
      exact List.mem_map_of_mem _ (List.mem_cons_self _ _)
  · exact hm

/-- The per-chapter windows of the two document shapes agree whenever
the chapter data correspond verse by verse, the flat records carry
distinct verse numbers, and the two upper bounds cut the records at the
same place. -/
theorem window_eq (chapData : ESVChapter) (chVs : List CUVSRecord)
    (lo hiE hiC : Nat)
    (hcorrC : ∀ v t, (chapData.lookup v = some t ∧ t ≠ "") ↔
      ∃ r ∈ chVs, r.verse = v ∧ r.text = t)
    (hndC : (chVs.map fun r => r.verse).Nodup)
    (hhi : ∀ r ∈ chVs, (r.verse ≤ hiE ↔ r.verse ≤ hiC)) :
    esvWindow chapData lo hiE = cuvsChapterWindow chVs lo hiC := by
  have hnd1 : (esvWindow chapData lo hiE).Nodup :=
    (esvWindow_pairwise chapData lo hiE).imp fun h heq =>
      absurd (heq ▸ h) (lt_irrefl _)
  have hnd2 : (cuvsChapterWindow chVs lo hiC).Nodup :=
    (cuvsChapterWindow_verses_nodup chVs lo hiC hndC).of_map _
  have hmem : ∀ x, x ∈ esvWindow chapData lo hiE ↔
      x ∈ cuvsChapterWindow chVs lo hiC := by
    intro x
    rw [mem_esvWindow, mem_cuvsChapterWindow]
    constructor
    · rintro ⟨h1, h2, h3, h4⟩
      obtain ⟨r, hr, hrv, hrt⟩ := (hcorrC x.verse x.text).mp ⟨h3, h4⟩
      refine ⟨r, hr, ?_, ?_, hrv, hrt⟩
      · rw [hrv]
        exact h1
      · exact (hhi r hr).mp (by rw [hrv]; exact h2)
    · rintro ⟨r, hr, h1, h2, h3, h4⟩
      obtain ⟨hl, ht⟩ := (hcorrC x.verse x.text).mpr ⟨r, hr, h3, h4⟩
      refine ⟨by rw [← h3]; exact h1, ?_, hl, ht⟩
      rw [← h3]
      exact (hhi r hr).mpr h2
  have hanti : IsAntisymm Verse fun a b => a.verse < b.verse :=
    ⟨fun a b h1 h2 => absurd (lt_trans h1 h2) (lt_irrefl _)⟩
  exact @List.eq_of_perm_of_sorted Verse (fun a b => a.verse < b.verse) hanti
    _ _ ((List.perm_ext_iff_of_nodup hnd1 hnd2).mpr hmem)
    (esvWindow_pairwise chapData lo hiE)
    (cuvsChapterWindow_pairwise_strict chVs lo hiC hndC)

/-- Chapter by chapter, the two resolver branches agree on documents
containing the same verses. -/
theorem chapterVerses_eq (bookData : ESVBook) (bookVerses : List CUVSRecord)
    (info : PassageInfo)
    (hcorr : ∀ c v t, (∃ chapterData, bookData.lookup c = some chapterData ∧
        chapterData.lookup v = some t ∧ t ≠ "") ↔
      ∃ r ∈ bookVerses, r.chapter = c ∧ r.verse = v ∧ r.text = t)
    (hnd : (bookVerses.map fun r => (r.chapter, r.verse)).Nodup)
    (hbound : ∀ r ∈ bookVerses, r.verse ≤ 999) (c : Nat) :
    esvChapterVerses bookData info c = cuvsChapterVerses bookVerses info c := by
  unfold esvChapterVerses cuvsChapterVerses
  dsimp only
  rcases hlk : bookData.lookup c with _ | chapData
  · have hempty : (bookVerses.filter fun v => decide (v.chapter = c)) = [] := by
      rw [List.eq_nil_iff_forall_not_mem]
      intro r hr
      obtain ⟨hmem, hcond⟩ := List.mem_filter.mp hr
      have hch : r.chapter = c := by simpa using hcond
      obtain ⟨chD, hc2, _, _⟩ := (hcorr c r.verse r.text).mpr
        ⟨r, hmem, hch, rfl, rfl⟩
      rw [hlk] at hc2
      exact absurd hc2 (by simp)
    rw [hempty]
    simp
  · show esvWindow chapData (lowerBound info c) (esvUpperBound info c) = _
    by_cases hch : (bookVerses.filter fun v => decide (v.chapter = c)) = []
    · have hwin : esvWindow chapData (lowerBound info c)
          (esvUpperBound info c) = [] := by
        unfold esvWindow
        apply filterMap_nil_of_forall
        intro v _
        rcases hx : esvVerseAt chapData v with _ | x
        · rfl
        · exfalso
          obtain ⟨hl2, ht2, _⟩ := (esvVerseAt_eq_some chapData v x).mp hx
          obtain ⟨r, hrmem, hrc, _, _⟩ := (hcorr c v x.text).mp
            ⟨chapData, hlk, hl2, ht2⟩
          have hmem2 : r ∈ bookVerses.filter fun q => decide (q.chapter = c) :=
            List.mem_filter.mpr ⟨hrmem, by simp [hrc]⟩
          rw [hch] at hmem2
          exact absurd hmem2 (by simp)
      rw [hch, hwin]
      simp
    · rw [if_neg (by simpa using hch)]
      apply window_eq chapData _ _ _ _ ?_
        (chapter_verses_nodup bookVerses c hnd) ?_
      · intro v t
        constructor
        · rintro ⟨h1, h2⟩
          obtain ⟨r, hrmem, hrc, hrv, hrt⟩ := (hcorr c v t).mp
            ⟨chapData, hlk, h1, h2⟩
          exact ⟨r, List.mem_filter.mpr ⟨hrmem, by simp [hrc]⟩, hrv, hrt⟩
        · rintro ⟨r, hrmem, hrv, hrt⟩
          obtain ⟨hmem2, hcond2⟩ := List.mem_filter.mp hrmem
          obtain ⟨chD, hc2, h1, h2⟩ := (hcorr c v t).mpr
            ⟨r, hmem2, by simpa using hcond2, hrv, hrt⟩
          rw [hlk] at hc2
          injection hc2 with hc2
          subst hc2
          exact ⟨h1, h2⟩
      · intro r hr
        obtain ⟨hmem2, _⟩ := List.mem_filter.mp hr
        unfold esvUpperBound cuvsUpperBound
        by_cases hce : c = info.endChapter
        · rw [if_pos hce, if_pos hce]
        · rw [if_neg hce, if_neg hce]
          unfold cuvsMaxVerse
          constructor
          · intro _
            exact le_foldl_max_of_mem _ 0 r.verse (List.mem_map_of_mem _ hr)
          · intro _
            exact hbound r hmem2

/-- C1 counterexample: for a non-final chapter the keyed branch's verse
window upper bound is the fixed sentinel `999`, not the maximum verse
number actually present: chapter 1 of `"Genesis 1:1-2:5"` holds verses
`{1, 2, 3}` (maximum `3`), yet the bound used is `999`. -/
theorem claim_C1_counterexample :
    esvUpperBound ⟨"Genesis", 1, 1, 2, 5⟩ 1 = 999 ∧
    (([(1, "a"), (2, "b"), (3, "c")] : ESVChapter).map Prod.fst).foldl
      max 0 = 3 ∧
    (999 : Nat) ≠ 3 := by
  decide

/-- C1 (amended): for a chapter strictly before the end chapter the
*flat* branch's upper bound is `Math.max` of the verse numbers actually
present — a genuine maximum: an element of the chapter's verse numbers
that dominates them all — while the *keyed* branch uses the fixed
sentinel `999` instead.  The two shapes nevertheless return the same
observable verse list on documents containing the same verses, i.e.
whenever (a) a verse `v` of chapter `c` carries truthy text `t` in the
keyed book exactly when the flat book has a record `(c, v, t)`, (b) the
flat records hold at most one record per `(chapter, verse)`, and (c) all
verse numbers stay below the sentinel, as Bible chapters do. -/
theorem claim_C1 (bookData : ESVBook) (bookVerses : List CUVSRecord)
    (info : PassageInfo)
    (hcorr : ∀ c v t, (∃ chapterData, bookData.lookup c = some chapterData ∧
        chapterData.lookup v = some t ∧ t ≠ "") ↔
      ∃ r ∈ bookVerses, r.chapter = c ∧ r.verse = v ∧ r.text = t)
    (hnd : (bookVerses.map fun r => (r.chapter, r.verse)).Nodup)
    (hbound : ∀ r ∈ bookVerses, r.verse ≤ 999) :
    (∀ c, c ≠ info.endChapter → ∀ chapterVerses,
      cuvsUpperBound info c chapterVerses = cuvsMaxVerse chapterVerses) ∧
    (∀ l : List CUVSRecord, l ≠ [] →
      cuvsMaxVerse l ∈ l.map (fun r => r.verse) ∧
      ∀ r ∈ l, r.verse ≤ cuvsMaxVerse l) ∧
    getVersesESVBook bookData info = getVersesCUVSBook bookVerses info := by
  refine ⟨?_, ?_, ?_⟩
  · intro c hc chapterVerses
    unfold cuvsUpperBound
    rw [if_neg hc]
  · intro l hl
    refine ⟨cuvsMaxVerse_mem l hl, ?_⟩
    intro r hr
    unfold cuvsMaxVerse
    exact le_foldl_max_of_mem _ 0 r.verse (List.mem_map_of_mem _ hr)
  · unfold getVersesESVBook getVersesCUVSBook
    apply List.flatMap_congr
    intro c _
    exact chapterVerses_eq bookData bookVerses info hcorr hnd hbound c

/-- Witness for C1: a one-verse book in both shapes, resolved over a
two-chapter window whose second chapter is absent from both. -/
theorem claim_C1_witness :
    getVersesESVBook [(1, [(1, "a")])] ⟨"B", 1, 1, 2, 3⟩ =
      getVersesCUVSBook [⟨"B", 1, 1, 1, "a"⟩] ⟨"B", 1, 1, 2, 3⟩ :=
  (claim_C1 [(1, [(1, "a")])] [⟨"B", 1, 1, 1, "a"⟩] ⟨"B", 1, 1, 2, 3⟩
    (by
      intro c v t
      constructor
      · rintro ⟨chD, hc, hv, ht⟩
        by_cases hc1 : c = 1
        · subst hc1
          simp only [List.lookup, beq_self_eq_true] at hc
          injection hc with hc
          subst hc
          by_cases hv1 : v = 1
          · subst hv1
            simp only [List.lookup, beq_self_eq_true] at hv
            injection hv with hv
            subst hv
            exact ⟨⟨"B", 1, 1, 1, "a"⟩, by simp, rfl, rfl, rfl⟩
          · have hb : (v == 1) = false := by simp [hv1]
            simp only [List.lookup, hb] at hv
            exact absurd hv (by simp)
        · have hb : (c == 1) = false := by simp [hc1]
          simp only [List.lookup, hb] at hc
          exact absurd hc (by simp)
      · rintro ⟨r, hr, hrc, hrv, hrt⟩
        simp only [List.mem_singleton] at hr
        subst hr
        simp only at hrc hrv hrt
        subst hrc
        subst hrv
        subst hrt
        exact ⟨[(1, "a")], by simp [List.lookup], by simp [List.lookup],
          by simp⟩)
    (by decide) (by decide)).2.2

end BibleDuo
